import Mathlib

/-!
Verification of the poetry-to-rye conversion routine
(`src/poetry2rye/convert.py`) against its specification.

The Python source is shallowly embedded: pure computations become Lean
functions, TOML tables become association lists, and the effectful tail of
`convert` becomes an explicit event trace.  `format_python_constraint` is an
external library function and is kept abstract as a parameter.
-/

namespace Poetry2Rye

/-! ## String helpers -/

/-- Core of Python's `str.rpartition(c)` for a one-character separator,
working on the character list of the string.  Returns `some (before, after)`
for the LAST occurrence of `c`, and `none` when `c` does not occur. -/
def rpartCore (c : Char) : List Char → Option (List Char × List Char)
  | [] => none
  | x :: xs =>
    match rpartCore c xs with
    | some (b, a) => some (x :: b, a)
    | none => if x = c then some ([], xs) else none

/-- Python's slice `s[1:-1]`: drop the first and the last character
(empty result for strings of length at most one). -/
def sliceInner (l : List Char) : List Char :=
  (l.drop 1).dropLast

/-- Result record of `read_name_email`: the Python function returns the dict
`{"name": ..., "email": ...}`. -/
structure NameEmail where
  name : String
  email : String
  deriving Repr, DecidableEq

/-- Embedding of `read_name_email` (convert.py lines 15-17):
`name, _, email = string.rpartition(" "); return {"name": name, "email": email[1:-1]}`.
Python's `rpartition` returns `("", "", s)` when the separator is absent, so
then `name = ""` and the slice is applied to the whole string. -/
def read_name_email (s : String) : NameEmail :=
  match rpartCore ' ' s.data with
  | some (b, a) => { name := ⟨b⟩, email := ⟨sliceInner a⟩ }
  | none => { name := "", email := ⟨sliceInner s.data⟩ }

/-! ## Dependency processing (convert.py lines 74-88) -/

/-- A dependency record as exposed by `PoetryProject.dependencies`.
`isPython` models `dep.is_python_dep()` (the record for the interpreter
constraint itself), `isDev` the `dep.is_dev` flag, `toStr` the PEP-508
string `dep.to_str()`, and `version` the constraint passed to
`format_python_constraint`. -/
structure Dep where
  version : String
  isPython : Bool
  isDev : Bool
  toStr : String
  deriving Repr, DecidableEq

/-- One line of a tomlkit multiline array: either an item added by
`add_line(x)` or the trailing blank line added by `add_line(indent="")`. -/
inductive ArrLine where
  | item (s : String)
  | blank
  deriving Repr, DecidableEq

/-- The dependency-related keys of the sections being built: `project_sec`'s
`requires-python` and `dependencies` keys and `tool_rye_sec`'s
`dev-dependencies` key.  `none` means the key is absent. -/
structure DepSecState where
  requiresPython : Option String
  devDeps : Option (List ArrLine)
  dependencies : Option (List ArrLine)
  deriving Repr, DecidableEq

/-- One iteration of the `for dep in poetry_project.dependencies` loop
(convert.py lines 76-85).  `fmt` is the external
`format_python_constraint`. -/
def depStep (fmt : String → String) (s : DepSecState) (d : Dep) : DepSecState :=
  if d.isPython then { s with requiresPython := some (fmt d.version) }
  else if d.isDev then
    { s with devDeps := some ((s.devDeps.getD []) ++ [ArrLine.item d.toStr]) }
  else
    { s with
      dependencies := some ((s.dependencies.getD []) ++ [ArrLine.item d.toStr]) }

/-- The whole dependency phase (convert.py lines 75-88): the `dependencies`
key is created empty up front, the loop runs, and trailing blank lines are
added to `dev-dependencies` (if present) and to `dependencies`. -/
def depsPhase (fmt : String → String) (deps : List Dep) : DepSecState :=
  let s := deps.foldl (depStep fmt) ⟨none, none, some []⟩
  let s2 :=
    match s.devDeps with
    | some l => { s with devDeps := some (l ++ [ArrLine.blank]) }
    | none => s
  { s2 with dependencies := some ((s2.dependencies.getD []) ++ [ArrLine.blank]) }

/-- The item strings held by an (optional) tomlkit array, blank lines
ignored. -/
def items (o : Option (List ArrLine)) : List String :=
  (o.getD []).filterMap fun l =>
    match l with
    | .item s => some s
    | .blank => none

/-- A record routed to `tool.rye.dev-dependencies`. -/
def isDevDep (d : Dep) : Bool := !d.isPython && d.isDev

/-- A record routed to `project.dependencies`. -/
def isRuntimeDep (d : Dep) : Bool := !d.isPython && !d.isDev

/-! ## Script conversion (convert.py lines 173-181) -/

/-- The shape of one value of the `[tool.poetry.scripts]` mapping as seen by
`_convert_scripts`'s `isinstance` dispatch: a plain string, a dict (whose
string fields are what `.get("callable", "")` can observe), or a value of
any other type (which the Python code silently skips — no `else` branch). -/
inductive ScriptValue where
  | str (s : String)
  | table (fields : List (String × String))
  | other
  deriving Repr, DecidableEq

/-- Python `dict.get(key, dflt)` over an association list with unique keys. -/
def dictGet (fields : List (String × String)) (key dflt : String) : String :=
  match fields with
  | [] => dflt
  | (k, v) :: rest => if k = key then v else dictGet rest key dflt

/-- The flattened string `_convert_scripts` stores for one script value:
the string itself for the string form, `script_value.get("callable", "")`
for the dict form, nothing for other types. -/
def scriptEntryValue : ScriptValue → Option String
  | .str s => some s
  | .table fields => some (dictGet fields "callable" "")
  | .other => none

/-- Embedding of `_convert_scripts` (convert.py lines 173-181): the loop
over `poetry_scripts.items()` building `rye_scripts`. -/
def convert_scripts (poetryScripts : List (String × ScriptValue)) :
    List (String × String) :=
  poetryScripts.filterMap fun e => (scriptEntryValue e.2).map (fun v => (e.1, v))

/-! ## Document merging (convert.py lines 98-146) -/

/-- A TOML value as handled by the merge loop: tables are association lists
(tomlkit preserves insertion order and keeps keys unique). -/
inductive TomlVal where
  | str (s : String)
  | boolean (b : Bool)
  | strArr (elems : List String)
  | lineArr (lines : List ArrLine)
  | table (entries : List (String × TomlVal))
  deriving Repr

/-- Dict read `d[k]` as an option (first matching key). -/
def lookupKey : List (String × TomlVal) → String → Option TomlVal
  | [], _ => none
  | (k, v) :: rest, key => if k = key then some v else lookupKey rest key

/-- Dict assignment `d[k] = v`: replace the value in place if the key
exists, append otherwise. -/
def setKey : List (String × TomlVal) → String → TomlVal → List (String × TomlVal)
  | [], key, v => [(key, v)]
  | (k, w) :: rest, key, v =>
    if k = key then (k, v) :: rest else (k, w) :: setKey rest key v

/-- tomlkit `table.add(k, v)`: appends, raising `KeyAlreadyPresent` if the
key already exists. -/
def addKey (entries : List (String × TomlVal)) (key : String) (v : TomlVal) :
    Except String (List (String × TomlVal)) :=
  match lookupKey entries key with
  | some _ => .error ("KeyAlreadyPresent: " ++ key)
  | none => .ok (entries ++ [(key, v)])

/-- The `for key, value in pyproject["tool"].items(): tool_table.add(key, value)`
loop (convert.py lines 113-114). -/
def addAll (entries : List (String × TomlVal)) :
    List (String × TomlVal) → Except String (List (String × TomlVal))
  | [] => .ok entries
  | (k, v) :: rest =>
    match addKey entries k v with
    | .ok e2 => addAll e2 rest
    | .error e => .error e

/-- tomlkit `table.pop(k)` without default: removes the key, raising
`KeyError` when absent (convert.py line 116). -/
def popKey : List (String × TomlVal) → String → Except String (List (String × TomlVal))
  | [], key => .error ("KeyError: " ++ key)
  | (k, v) :: rest, key =>
    if k = key then .ok rest
    else
      match popKey rest key with
      | .ok r => .ok ((k, v) :: r)
      | .error e => .error e

/-- Does `needle` occur as a contiguous run inside the character list? -/
def hasInfixRun (needle : List Char) : List Char → Bool
  | [] => needle.isPrefixOf []
  | c :: rest => needle.isPrefixOf (c :: rest) || hasInfixRun needle rest

/-- Python's substring test `needle in hay`. -/
def strContains (hay needle : String) : Bool := hasInfixRun needle.data hay.data

/-- The build-system rewrite (convert.py lines 121-128): starting from a
deep copy of the old section, filter every `requires` string containing
`poetry-core` out, append `hatchling`, and set
`build-backend = "hatchling.build"`.  Reading a missing or non-array
`requires` raises in Python, modelled by `Except.error`. -/
def rewriteBuildSystem : TomlVal → Except String TomlVal
  | .table entries =>
    match lookupKey entries "requires" with
    | some (.strArr reqs) =>
      .ok (.table (setKey
        (setKey entries "requires"
          (.strArr ((reqs.filter fun x => !(strContains x "poetry-core"))
            ++ ["hatchling"])))
        "build-backend" (.str "hatchling.build")))
    | some _ => .error "build-system requires is not an array of strings"
    | none => .error "KeyError: requires"
  | _ => .error "build-system is not a table"

/-- One iteration of the `for name in pyproject.keys()` loop (convert.py
lines 108-130), acting on the accumulated `tool_table` and `result`. -/
def mergeStep (vp : Bool) (toolTable result : List (String × TomlVal))
    (name : String) (val : TomlVal) :
    Except String (List (String × TomlVal) × List (String × TomlVal)) :=
  if name = "project" then .ok (toolTable, result)
  else if name = "tool" then
    match val with
    | .table toolEntries =>
      match addAll toolTable toolEntries with
      | .ok t1 =>
        match popKey t1 "poetry" with
        | .ok t2 => .ok (t2, setKey result "tool" (.table t2))
        | .error e => .error e
      | .error e => .error e
    | _ => .error "tool section is not a table"
  else if name = "build-system" then
    if vp then .ok (toolTable, result)
    else
      match rewriteBuildSystem val with
      | .ok v => .ok (toolTable, setKey result "build-system" v)
      | .error e => .error e
  else .ok (toolTable, setKey result name val)

/-- The whole section-copying loop of `convert`. -/
def mergeLoop (vp : Bool) :
    List (String × TomlVal) → List (String × TomlVal) → List (String × TomlVal) →
    Except String (List (String × TomlVal) × List (String × TomlVal))
  | [], toolTable, result => .ok (toolTable, result)
  | (name, val) :: rest, toolTable, result =>
    match mergeStep vp toolTable result name val with
    | .ok (tt2, res2) => mergeLoop vp rest tt2 res2
    | .error e => .error e

/-- The `tool.rye` section `tool_rye_sec` (convert.py lines 27 and 82):
`managed = True`, `virtual = virtual_project`, plus the dev-dependency
array when one was created. -/
def ryeSection (vp : Bool) (devDeps : Option (List ArrLine)) :
    List (String × TomlVal) :=
  [("managed", TomlVal.boolean true), ("virtual", TomlVal.boolean vp)]
    ++ (match devDeps with
        | some l => [("dev-dependencies", TomlVal.lineArr l)]
        | none => [])

/-- The generated `tool.hatch` configuration (convert.py lines 143-146). -/
def hatchTable (packages : List String) : TomlVal :=
  .table
    [("metadata", .table [("allow-direct-references", .boolean true)]),
     ("build", .table
       [("targets", .table [("wheel", .table [("packages", .strArr packages)])])])]

/-- The non-virtual build-config step (convert.py lines 133-146): assigns
`result["tool"]["hatch"]`, which raises when `result` has no tool table. -/
def hatchStep (vp : Bool) (packages : List String)
    (result : List (String × TomlVal)) :
    Except String (List (String × TomlVal)) :=
  if vp then .ok result
  else
    match lookupKey result "tool" with
    | some (.table tt) =>
      .ok (setKey result "tool" (.table (setKey tt "hatch" (hatchTable packages))))
    | some _ => .error "tool is not a table"
    | none => .error "KeyError: tool"

/-- The initial `result` document: `result["project"] = project_sec` and,
when the urls section is non-empty, `result["project.urls"] = urls_sec`
(convert.py lines 98-102). -/
def mergeInit (projectSec : TomlVal) (urlsSec : Option TomlVal) :
    List (String × TomlVal) :=
  [("project", projectSec)]
    ++ (match urlsSec with
        | some u => [("project.urls", u)]
        | none => [])

/-- The document-building part of `convert` (lines 98-146): sections are
merged starting from the rye-seeded tool table, then the hatch build config
is added unless the project is virtual. -/
def buildResult (vp : Bool) (ryeDev : Option (List ArrLine))
    (projectSec : TomlVal) (urlsSec : Option TomlVal) (packages : List String)
    (pyproject : List (String × TomlVal)) :
    Except String (List (String × TomlVal)) :=
  match mergeLoop vp pyproject [("rye", .table (ryeSection vp ryeDev))]
      (mergeInit projectSec urlsSec) with
  | .ok (_, result) => hatchStep vp packages result
  | .error e => .error e

/-- Extract the document of a successful conversion (empty on failure). -/
def resultOf (r : Except String (List (String × TomlVal))) :
    List (String × TomlVal) :=
  match r with
  | .ok res => res
  | .error _ => []

/-- Did the conversion succeed? -/
def isOkResult (r : Except String (List (String × TomlVal))) : Bool :=
  match r with
  | .ok _ => true
  | .error _ => false

/-- The `build-system` section of a conversion result (the sentinel string
distinguishes a failed run from a missing section). -/
def bsOf (r : Except String (List (String × TomlVal))) : Option TomlVal :=
  match r with
  | .ok res => lookupKey res "build-system"
  | .error _ => some (.str "CONVERSION FAILED")

/-- The `requires` list of the result's `build-system` section. -/
def bsReqOf (r : Except String (List (String × TomlVal))) : Option TomlVal :=
  match bsOf r with
  | some (.table b) => lookupKey b "requires"
  | _ => none

/-- The `build-backend` of the result's `build-system` section. -/
def bsBackendOf (r : Except String (List (String × TomlVal))) : Option TomlVal :=
  match bsOf r with
  | some (.table b) => lookupKey b "build-backend"
  | _ => none

/-- The `tool.hatch` entry of a conversion result. -/
def toolHatchOf (r : Except String (List (String × TomlVal))) : Option TomlVal :=
  match r with
  | .ok res =>
    match lookupKey res "tool" with
    | some (.table tt) => lookupKey tt "hatch"
    | _ => none
  | .error _ => none

/-- Tool entries of the concrete counterexample project: a poetry section
plus a pre-existing `hatch` sibling. -/
def cexToolEntries : List (String × TomlVal) :=
  [("poetry", .table []), ("hatch", .str "original")]

/-- The concrete counterexample's original `build-system` section. -/
def cexBs : TomlVal :=
  .table [("requires", .strArr ["poetry-core>=1.0"]),
          ("build-backend", .str "poetry.core.masonry.api")]

/-- Concrete counterexample input document. -/
def cexPy : List (String × TomlVal) :=
  [("tool", .table cexToolEntries), ("build-system", cexBs)]

/-- Concrete witness input document for the section-merge theorem. -/
def wPy2 : List (String × TomlVal) :=
  [("tool", .table [("poetry", .table []), ("black", .str "cfg")]),
   ("extra", .str "keep")]

/-- Concrete witness input document for the build-system theorem. -/
def wPy3 : List (String × TomlVal) :=
  [("tool", .table [("poetry", .table [])]),
   ("build-system", .table [("requires", .strArr ["poetry-core>=1.0"])])]

/-! ## The src/ move step (convert.py lines 164-170) -/

/-- The on-disk state as a list of existing paths. -/
def fsMkdir (fs : List String) (p : String) : List String := p :: fs

/-- `shutil.move(src, dst)`: the source path disappears and the destination
appears. -/
def fsMove (fs : List String) (src dst : String) : List String :=
  dst :: fs.filter (fun q => q != src)

/-- Embedding of the final move step of `convert`: when `ensure_src` holds
and the `src` directory does not yet exist, it is created and the module
tree is moved to `src/<module_name>`; otherwise nothing happens. -/
def moveStep (ensureSrc : Bool) (srcDir modulePath target : String)
    (fs : List String) : List String :=
  if ensureSrc then
    if srcDir ∈ fs then fs
    else fsMove (fsMkdir fs srcDir) modulePath target
  else fs

/-! ## The effect trace of convert (convert.py lines 94-170) -/

/-- The observable file-system and console effects of `convert` from the
point the original document has been built, in source order. -/
inductive Event where
  | readFile (p : String)
  | copyTree (src dst : String) (symlinks dirsExistOk : Bool)
  | printMsg (s : String)
  | writeFile (p : String)
  | removeFile (p : String)
  | mkdirEvt (p : String)
  | moveEvt (src dst : String)
  deriving Repr, DecidableEq

/-- Events that mutate the project directory. -/
def isMutation : Event → Bool
  | .writeFile _ => true
  | .removeFile _ => true
  | .mkdirEvt _ => true
  | .moveEvt _ _ => true
  | _ => false

/-- The warning printed for line `num` (convert.py line 159):
`f"Warning: found 'poetry' in line {num}: {content.strip()}"`.
(`String.trim` models Python's `str.strip()`.) -/
def mkWarning (num : Nat) (content : String) : String :=
  "Warning: found \x27poetry\x27 in line " ++ toString num ++ ": "
    ++ content.trim

/-- The validation sweep loop (convert.py lines 156-159):
`for num, content in enumerate(f.readlines(), start=1)`, printing a warning
for every line containing the substring `poetry`. -/
def warnLoop (num : Nat) : List String → List String
  | [] => []
  | content :: rest =>
    (if strContains content "poetry" then [mkWarning num content] else [])
      ++ warnLoop (num + 1) rest

/-- The effect trace of the tail of `convert` (lines 94-170), in source
order: read the original file, back the project tree up
(`shutil.copytree(..., dirs_exist_ok=True, symlinks=True)`), report the
backup, overwrite the metadata file, re-read it, print the warnings for its
lines, delete `poetry.lock` when present, and perform the src/ move when
requested and `src` does not yet exist. -/
def convertTrace (projectPath backupPath modulePath moduleName : String)
    (ensureSrc lockExists srcExists : Bool) (outLines : List String) :
    List Event :=
  [Event.readFile (projectPath ++ "/pyproject.toml"),
   Event.copyTree projectPath backupPath true true,
   Event.printMsg ("created backup: " ++ backupPath),
   Event.writeFile (projectPath ++ "/pyproject.toml"),
   Event.readFile (projectPath ++ "/pyproject.toml")]
  ++ (warnLoop 1 outLines).map Event.printMsg
  ++ (if lockExists then [Event.removeFile (projectPath ++ "/poetry.lock")]
      else [])
  ++ (if ensureSrc && !srcExists then
        [Event.mkdirEvt (projectPath ++ "/src"),
         Event.moveEvt modulePath (projectPath ++ "/src/" ++ moduleName)]
      else [])

/-- If `c` does not occur in `l`, `rpartCore` finds nothing. -/
theorem rpartCore_eq_none {c : Char} {l : List Char} (h : c ∉ l) :
    rpartCore c l = none := by
  induction l with
  | nil => rfl
  | cons x xs ih =>
    simp only [List.mem_cons, not_or] at h
    simp only [rpartCore, ih h.2]
    exact if_neg (fun hx => h.1 hx.symm)

/-- `rpartCore` splits at the last occurrence: if `c` does not occur in `l₂`,
then `l₁ ++ c :: l₂` splits as `(l₁, l₂)`. -/
theorem rpartCore_append {c : Char} (l₁ : List Char) {l₂ : List Char}
    (h : c ∉ l₂) : rpartCore c (l₁ ++ c :: l₂) = some (l₁, l₂) := by
  induction l₁ with
  | nil => simp [rpartCore, rpartCore_eq_none h]
  | cons x xs ih => simp [rpartCore, ih]

theorem sliceInner_wrap (l : List Char) (a b : Char) :
    sliceInner (a :: (l ++ [b])) = l := by
  simp [sliceInner, List.dropLast_concat]

/-- C4: on well-formed input of the shape `Name <email>` (no space in the
email part), `read_name_email` splits on the last space and strips the angle
brackets, returning the pair of the name and the bare email address. -/
theorem read_name_email_well_formed (name email : String)
    (h : ' ' ∉ email.data) :
    read_name_email (name ++ " <" ++ email ++ ">") = ⟨name, email⟩ := by
  have h1 : (" <" : String).data = [' ', '<'] := rfl
  have h2 : ((">" : String)).data = ['>'] := rfl
  have hmem : ' ' ∉ '<' :: (email.data ++ ['>']) := by
    simp only [List.mem_cons, List.mem_append, List.mem_singleton, not_or]
    exact ⟨by decide, h, by decide⟩
  have hdata : (name ++ " <" ++ email ++ ">").data
      = name.data ++ ' ' :: ('<' :: (email.data ++ ['>'])) := by
    rw [String.data_append, String.data_append, String.data_append, h1, h2]
    simp
  unfold read_name_email
  rw [hdata, rpartCore_append name.data hmem]
  show NameEmail.mk ⟨name.data⟩ ⟨sliceInner ('<' :: (email.data ++ ['>']))⟩ = _
  rw [sliceInner_wrap]

/-- Witness for C4 at the spec's concrete example. -/
theorem read_name_email_well_formed_witness :
    read_name_email ("Jane Doe" ++ " <" ++ "jane@example.com" ++ ">")
        = ⟨"Jane Doe", "jane@example.com"⟩
      ∧ "Jane Doe" ++ " <" ++ "jane@example.com" ++ ">"
        = "Jane Doe <jane@example.com>" :=
  ⟨read_name_email_well_formed "Jane Doe" "jane@example.com" (by decide),
   by decide⟩

/-- C9: `read_name_email` is total and, outside the `Name <email>` shape,
mangles its input: the name is the text before the last space (empty when
there is no space) and the email is the text after the last space with its
first and last characters removed unconditionally.  On the bracketless input
`jane@example.com` this yields name `""` and email `ane@example.co`. -/
theorem read_name_email_mangles :
    (∀ s : String, ' ' ∉ s.data →
      (read_name_email s).name = ""
        ∧ (read_name_email s).email.data = (s.data.drop 1).dropLast)
    ∧ (∀ before after : String, ' ' ∉ after.data →
      (read_name_email (before ++ " " ++ after)).name = before
        ∧ (read_name_email (before ++ " " ++ after)).email.data
            = (after.data.drop 1).dropLast)
    ∧ read_name_email "jane@example.com" = ⟨"", "ane@example.co"⟩ := by
  refine ⟨fun s h => ?_, fun before after h => ?_, by decide⟩
  · unfold read_name_email
    rw [rpartCore_eq_none h]
    exact ⟨rfl, rfl⟩
  · have hdata : (before ++ " " ++ after).data
        = before.data ++ ' ' :: after.data := by
      have hsp : (" " : String).data = [' '] := rfl
      rw [String.data_append, String.data_append, hsp]
      simp
    unfold read_name_email
    rw [hdata, rpartCore_append before.data h]
    exact ⟨rfl, rfl⟩

theorem items_append_item (o : Option (List ArrLine)) (x : String) :
    items (some ((o.getD []) ++ [ArrLine.item x])) = items o ++ [x] := by
  cases o <;> simp [items]

theorem foldl_requiresPython_nil (fmt : String → String) (deps : List Dep)
    (s₀ : DepSecState) (h : deps.filter (·.isPython) = []) :
    (deps.foldl (depStep fmt) s₀).requiresPython = s₀.requiresPython := by
  induction deps generalizing s₀ with
  | nil => rfl
  | cons d ds ih =>
    rw [List.filter_cons] at h
    by_cases hd : d.isPython
    · simp [hd] at h
    · rw [eq_false_of_ne_true hd] at h
      simp only [if_neg, Bool.false_eq_true, not_false_eq_true] at h
      rw [List.foldl_cons, ih _ h]
      simp only [depStep, hd, if_false]
      by_cases hdev : d.isDev <;> simp [hdev]

theorem foldl_requiresPython_one (fmt : String → String) (deps : List Dep)
    (s₀ : DepSecState) (d : Dep) (h : deps.filter (·.isPython) = [d]) :
    (deps.foldl (depStep fmt) s₀).requiresPython = some (fmt d.version) := by
  induction deps generalizing s₀ with
  | nil => simp at h
  | cons x ds ih =>
    rw [List.filter_cons] at h
    by_cases hx : x.isPython
    · simp only [hx, if_pos] at h
      have hxd : x = d := (List.cons.injEq _ _ _ _ ▸ h).1
      have hrest : ds.filter (·.isPython) = [] := (List.cons.injEq _ _ _ _ ▸ h).2
      rw [List.foldl_cons, foldl_requiresPython_nil fmt ds _ hrest]
      subst hxd
      simp [depStep, hx]
    · rw [eq_false_of_ne_true hx] at h
      simp only [if_neg, Bool.false_eq_true, not_false_eq_true] at h
      rw [List.foldl_cons, ih _ h]

theorem foldl_devDeps_items (fmt : String → String) (deps : List Dep)
    (s₀ : DepSecState) :
    items (deps.foldl (depStep fmt) s₀).devDeps
      = items s₀.devDeps ++ (deps.filter isDevDep).map (·.toStr) := by
  induction deps generalizing s₀ with
  | nil => simp
  | cons d ds ih =>
    rw [List.foldl_cons, ih, List.filter_cons]
    by_cases hp : d.isPython
    · simp [depStep, hp, isDevDep]
    · by_cases hdev : d.isDev
      · have : isDevDep d = true := by simp [isDevDep, hp, hdev]
        simp [depStep, hp, hdev, this, items_append_item]
      · have : isDevDep d = false := by simp [isDevDep, hdev]
        simp [depStep, hp, hdev, this]

theorem foldl_dependencies (fmt : String → String) (deps : List Dep)
    (s₀ : DepSecState) (l₀ : List ArrLine) (h : s₀.dependencies = some l₀) :
    (deps.foldl (depStep fmt) s₀).dependencies
      = some (l₀ ++ (deps.filter isRuntimeDep).map (ArrLine.item ·.toStr)) := by
  induction deps generalizing s₀ l₀ with
  | nil => simp [h]
  | cons d ds ih =>
    rw [List.foldl_cons, List.filter_cons]
    by_cases hp : d.isPython
    · have : isRuntimeDep d = false := by simp [isRuntimeDep, hp]
      rw [this]
      simp only [Bool.false_eq_true, if_neg, not_false_eq_true]
      exact ih _ _ (by simp [depStep, hp, h])
    · by_cases hdev : d.isDev
      · have : isRuntimeDep d = false := by simp [isRuntimeDep, hdev]
        rw [this]
        simp only [Bool.false_eq_true, if_neg, not_false_eq_true]
        exact ih _ _ (by simp [depStep, hp, hdev, h])
      · have hr : isRuntimeDep d = true := by simp [isRuntimeDep, hp, hdev]
        rw [hr]
        simp only [if_pos]
        rw [ih _ (l₀ ++ [ArrLine.item d.toStr]) (by simp [depStep, hp, hdev, h])]
        simp

theorem foldl_devDeps_isSome (fmt : String → String) (deps : List Dep)
    (s₀ : DepSecState) :
    (deps.foldl (depStep fmt) s₀).devDeps.isSome
      = (s₀.devDeps.isSome || deps.any isDevDep) := by
  induction deps generalizing s₀ with
  | nil => simp
  | cons d ds ih =>
    rw [List.foldl_cons, ih, List.any_cons]
    by_cases hp : d.isPython
    · have : isDevDep d = false := by simp [isDevDep, hp]
      simp [depStep, hp, this]
    · by_cases hdev : d.isDev
      · have : isDevDep d = true := by simp [isDevDep, hp, hdev]
        simp [depStep, hp, hdev, this]
      · have : isDevDep d = false := by simp [isDevDep, hdev]
        simp [depStep, hp, hdev, this]

/-- Witness for C9 at concrete inputs. -/
theorem read_name_email_mangles_witness :
    (read_name_email "jane@example.com").name = ""
      ∧ (read_name_email "jane@example.com").email.data
          = (("jane@example.com" : String).data.drop 1).dropLast
      ∧ (read_name_email ("a b" ++ " " ++ "cd")).name = "a b" :=
  ⟨(read_name_email_mangles.1 "jane@example.com" (by decide)).1,
   (read_name_email_mangles.1 "jane@example.com" (by decide)).2,
   (read_name_email_mangles.2.1 "a b" "cd" (by decide)).1⟩

theorem items_some_append_blank (l : List ArrLine) :
    items (some (l ++ [ArrLine.blank])) = items (some l) := by
  simp [items]

theorem items_some_map_item (l : List Dep) :
    items (some (l.map (fun d => ArrLine.item d.toStr)))
      = l.map (fun d => d.toStr) := by
  induction l with
  | nil => rfl
  | cons a t ih =>
    simp only [List.map_cons, items, Option.getD_some, List.filterMap_cons] at ih ⊢
    rw [ih]

theorem depsPhase_requiresPython (fmt : String → String) (deps : List Dep) :
    (depsPhase fmt deps).requiresPython
      = (deps.foldl (depStep fmt) ⟨none, none, some []⟩).requiresPython := by
  unfold depsPhase
  cases hd : (deps.foldl (depStep fmt) ⟨none, none, some []⟩).devDeps <;>
    simp [hd]

theorem depsPhase_devDeps_items (fmt : String → String) (deps : List Dep) :
    items (depsPhase fmt deps).devDeps
      = items (deps.foldl (depStep fmt) ⟨none, none, some []⟩).devDeps := by
  unfold depsPhase
  cases hd : (deps.foldl (depStep fmt) ⟨none, none, some []⟩).devDeps <;>
    simp [hd, items]

theorem depsPhase_devDeps_isSome (fmt : String → String) (deps : List Dep) :
    (depsPhase fmt deps).devDeps.isSome
      = (deps.foldl (depStep fmt) ⟨none, none, some []⟩).devDeps.isSome := by
  unfold depsPhase
  cases hd : (deps.foldl (depStep fmt) ⟨none, none, some []⟩).devDeps <;>
    simp [hd]

theorem depsPhase_dependencies (fmt : String → String) (deps : List Dep) :
    (depsPhase fmt deps).dependencies
      = some (((deps.foldl (depStep fmt) ⟨none, none, some []⟩).dependencies.getD [])
          ++ [ArrLine.blank]) := by
  unfold depsPhase
  cases hd : (deps.foldl (depStep fmt) ⟨none, none, some []⟩).devDeps <;>
    simp [hd]

/-- C1: over an input project (whose dependency list carries at most one
interpreter-constraint record, as one TOML table cannot declare the key
`python` twice), the dependency phase of `convert` partitions the input
dependency set exactly: the interpreter record (if any) becomes
`requires-python`, dev-flagged records land in `tool.rye.dev-dependencies`,
all other records in `project.dependencies`, and the three destinations
together contain every input dependency exactly once. -/
theorem convert_partitions_dependencies (fmt : String → String)
    (deps : List Dep) (h : (deps.filter (fun d => d.isPython)).length ≤ 1) :
    (depsPhase fmt deps).requiresPython
        = ((deps.filter (fun d => d.isPython)).head?).map (fun d => fmt d.version)
      ∧ items (depsPhase fmt deps).devDeps
          = (deps.filter isDevDep).map (fun d => d.toStr)
      ∧ items (depsPhase fmt deps).dependencies
          = (deps.filter isRuntimeDep).map (fun d => d.toStr)
      ∧ (deps.filter (fun d => d.isPython) ++ deps.filter isDevDep
          ++ deps.filter isRuntimeDep).Perm deps
      ∧ ∀ d ∈ deps,
          (d.isPython = true ∧ isDevDep d = false ∧ isRuntimeDep d = false)
          ∨ (d.isPython = false ∧ isDevDep d = true ∧ isRuntimeDep d = false)
          ∨ (d.isPython = false ∧ isDevDep d = false ∧ isRuntimeDep d = true) := by
  refine ⟨?_, ?_, ?_, ?_, ?_⟩
  · rw [depsPhase_requiresPython]
    rcases hf : deps.filter (fun d => d.isPython) with _ | ⟨a, _ | ⟨b, t⟩⟩
    · rw [foldl_requiresPython_nil fmt deps _ hf, hf]
      rfl
    · rw [foldl_requiresPython_one fmt deps _ a hf, hf]
      rfl
    · rw [hf] at h
      simp at h
  · rw [depsPhase_devDeps_items, foldl_devDeps_items]
    simp [items]
  · rw [depsPhase_dependencies, foldl_dependencies fmt deps _ [] rfl]
    simp only [Option.getD_some, List.nil_append]
    rw [items_some_append_blank, items_some_map_item]
  · have h1 := List.filter_append_perm (fun d => d.isPython) deps
    have h2 := List.filter_append_perm (fun d => d.isDev)
      (deps.filter (fun d => !d.isPython))
    rw [List.filter_filter, List.filter_filter] at h2
    have e1 : deps.filter (fun a => a.isDev && !a.isPython)
        = deps.filter isDevDep :=
      List.filter_congr (fun a _ => by simp [isDevDep, Bool.and_comm])
    have e2 : deps.filter (fun a => !a.isDev && !a.isPython)
        = deps.filter isRuntimeDep :=
      List.filter_congr (fun a _ => by simp [isRuntimeDep, Bool.and_comm])
    rw [List.append_assoc]
    refine List.Perm.trans (List.Perm.append_left _ ?_) h1
    rw [← e1, ← e2]
    exact h2
  · intro d _
    by_cases hp : d.isPython <;> by_cases hd : d.isDev <;>
      simp [isDevDep, isRuntimeDep, hp, hd]

/-- Witness for C1 at a concrete three-record project. -/
theorem convert_partitions_dependencies_witness :
    (depsPhase (fun v => v)
        [⟨"^3.8", true, false, "python"⟩, ⟨"", false, true, "pytest>=7"⟩,
         ⟨"", false, false, "requests>=2"⟩]).requiresPython = some "^3.8"
      ∧ items (depsPhase (fun v => v)
          [⟨"^3.8", true, false, "python"⟩, ⟨"", false, true, "pytest>=7"⟩,
           ⟨"", false, false, "requests>=2"⟩]).devDeps = ["pytest>=7"]
      ∧ items (depsPhase (fun v => v)
          [⟨"^3.8", true, false, "python"⟩, ⟨"", false, true, "pytest>=7"⟩,
           ⟨"", false, false, "requests>=2"⟩]).dependencies = ["requests>=2"] := by
  have h := convert_partitions_dependencies (fun v => v)
    [⟨"^3.8", true, false, "python"⟩, ⟨"", false, true, "pytest>=7"⟩,
     ⟨"", false, false, "requests>=2"⟩] (by decide)
  exact ⟨h.1.trans (by decide), h.2.1.trans (by decide), h.2.2.1.trans (by decide)⟩

/-- C10: the output `project` section always carries a `dependencies` key —
when the project has no runtime dependency the array holds only the trailing
blank line — while `tool.rye.dev-dependencies` is present exactly when some
(non-interpreter) dev-flagged dependency exists. -/
theorem convert_dependencies_key_always (fmt : String → String)
    (deps : List Dep) :
    (depsPhase fmt deps).dependencies.isSome = true
      ∧ (deps.filter isRuntimeDep = [] →
          (depsPhase fmt deps).dependencies = some [ArrLine.blank])
      ∧ (depsPhase fmt deps).devDeps.isSome = deps.any isDevDep := by
  refine ⟨?_, ?_, ?_⟩
  · rw [depsPhase_dependencies]
    rfl
  · intro h0
    rw [depsPhase_dependencies, foldl_dependencies fmt deps _ [] rfl, h0]
    rfl
  · rw [depsPhase_devDeps_isSome, foldl_devDeps_isSome]
    simp

/-- Witness for C10 at the empty dependency list. -/
theorem convert_dependencies_key_always_witness :
    (depsPhase (fun v => v) ([] : List Dep)).dependencies = some [ArrLine.blank]
      ∧ (depsPhase (fun v => v) ([] : List Dep)).devDeps.isSome = false := by
  have h := convert_dependencies_key_always (fun v => v) []
  exact ⟨h.2.1 rfl, h.2.2.trans rfl⟩

theorem dictGet_absent (fields : List (String × String)) (key dflt : String)
    (h : key ∉ fields.map Prod.fst) : dictGet fields key dflt = dflt := by
  induction fields with
  | nil => rfl
  | cons e rest ih =>
    simp only [List.map_cons, List.mem_cons, not_or] at h
    cases e with
    | mk k v =>
      simp only [dictGet]
      rw [if_neg (fun hk => h.1 hk.symm)]
      exact ih h.2

/-- C5: script conversion maps a string-valued entry to that same string,
and a dict-valued entry to its `callable` field, defaulting to the empty
string when that field is absent; the string form and the structured form of
the same invocation produce the same flattened entry. -/
theorem convert_scripts_spec :
    (∀ (n s : String) (rest : List (String × ScriptValue)),
        convert_scripts ((n, ScriptValue.str s) :: rest)
          = (n, s) :: convert_scripts rest)
      ∧ (∀ (n : String) (fields : List (String × String))
            (rest : List (String × ScriptValue)),
          convert_scripts ((n, ScriptValue.table fields) :: rest)
            = (n, dictGet fields "callable" "") :: convert_scripts rest)
      ∧ (∀ (n : String) (fields : List (String × String)),
          "callable" ∉ fields.map Prod.fst →
            convert_scripts [(n, ScriptValue.table fields)] = [(n, "")])
      ∧ (∀ n s : String,
          convert_scripts [(n, ScriptValue.str s)]
            = convert_scripts [(n, ScriptValue.table [("callable", s)])]) := by
  refine ⟨fun n s rest => ?_, fun n fields rest => ?_, fun n fields h => ?_,
    fun n s => ?_⟩
  · simp [convert_scripts, List.filterMap_cons, scriptEntryValue]
  · simp [convert_scripts, List.filterMap_cons, scriptEntryValue]
  · simp [convert_scripts, List.filterMap_cons, scriptEntryValue,
      dictGet_absent fields "callable" "" h]
  · simp [convert_scripts, List.filterMap_cons, scriptEntryValue, dictGet]

/-- Witness for C5 at the spec's concrete example. -/
theorem convert_scripts_spec_witness :
    convert_scripts [("cli", ScriptValue.str "pkg.mod:main")]
        = [("cli", "pkg.mod:main")]
      ∧ convert_scripts [("cli", ScriptValue.str "pkg.mod:main")]
          = convert_scripts [("cli", ScriptValue.table [("callable", "pkg.mod:main")])]
      ∧ convert_scripts [("cli", ScriptValue.table [("name", "x")])] = [("cli", "")] :=
  ⟨convert_scripts_spec.1 "cli" "pkg.mod:main" [],
   convert_scripts_spec.2.2.2 "cli" "pkg.mod:main",
   convert_scripts_spec.2.2.1 "cli" [("name", "x")] (by decide)⟩

/-! ## Association-list lemmas for the merge -/

theorem lookupKey_setKey_self (entries : List (String × TomlVal)) (k : String)
    (v : TomlVal) : lookupKey (setKey entries k v) k = some v := by
  induction entries with
  | nil => simp [setKey, lookupKey]
  | cons e rest ih =>
    obtain ⟨k0, w⟩ := e
    by_cases h : k0 = k
    · simp [setKey, lookupKey, h]
    · simp [setKey, lookupKey, h, ih]

theorem lookupKey_setKey_ne (entries : List (String × TomlVal)) (k k' : String)
    (v : TomlVal) (h : k' ≠ k) :
    lookupKey (setKey entries k v) k' = lookupKey entries k' := by
  induction entries with
  | nil =>
    simp only [setKey, lookupKey]
    rw [if_neg (fun hh => h hh.symm)]
  | cons e rest ih =>
    obtain ⟨k0, w⟩ := e
    by_cases h0 : k0 = k
    · subst h0
      simp only [setKey, if_pos rfl, lookupKey]
      rw [if_neg (fun hh => h hh.symm), if_neg (fun hh => h hh.symm)]
    · by_cases h1 : k0 = k'
      · simp [setKey, lookupKey, h0, h1, h]
      · simp [setKey, lookupKey, h0, h1, ih]

theorem lookupKey_eq_none_of_not_mem (entries : List (String × TomlVal))
    (k : String) (h : k ∉ entries.map Prod.fst) : lookupKey entries k = none := by
  induction entries with
  | nil => rfl
  | cons e rest ih =>
    obtain ⟨k0, w⟩ := e
    simp only [List.map_cons, List.mem_cons, not_or] at h
    simp only [lookupKey]
    rw [if_neg (fun hh => h.1 hh.symm), ih h.2]

theorem lookupKey_of_mem_nodup (entries : List (String × TomlVal))
    (k : String) (v : TomlVal) (hmem : (k, v) ∈ entries)
    (hnd : (entries.map Prod.fst).Nodup) : lookupKey entries k = some v := by
  induction entries with
  | nil => cases hmem
  | cons e rest ih =>
    obtain ⟨k0, w⟩ := e
    simp only [List.map_cons, List.nodup_cons] at hnd
    rcases List.mem_cons.mp hmem with heq | hm
    · cases heq
      simp [lookupKey]
    · have hk : k0 ≠ k := by
        intro hk
        subst hk
        exact hnd.1 (List.mem_map_of_mem Prod.fst hm)
      simp [lookupKey, hk, ih hm hnd.2]

theorem lookupKey_append (a b : List (String × TomlVal)) (k : String) :
    lookupKey (a ++ b) k
      = match lookupKey a k with
        | some v => some v
        | none => lookupKey b k := by
  induction a with
  | nil => simp [lookupKey]
  | cons e rest ih =>
    obtain ⟨k0, w⟩ := e
    by_cases h : k0 = k <;> simp [lookupKey, h, ih]

theorem addAll_ok_eq (t adds u : List (String × TomlVal))
    (h : addAll t adds = .ok u) : u = t ++ adds := by
  induction adds generalizing t with
  | nil =>
    simp only [addAll, Except.ok.injEq] at h
    simp [h.symm]
  | cons e rest ih =>
    obtain ⟨k, v⟩ := e
    unfold addAll addKey at h
    cases hl : lookupKey t k with
    | some w => rw [hl] at h; cases h
    | none =>
      rw [hl] at h
      rw [ih _ h]
      simp

theorem addAll_ok_fresh (t adds u : List (String × TomlVal))
    (h : addAll t adds = .ok u) :
    ∀ p ∈ adds, lookupKey t p.1 = none := by
  induction adds generalizing t with
  | nil => intro p hp; cases hp
  | cons e rest ih =>
    obtain ⟨k, v⟩ := e
    intro p hp
    unfold addAll addKey at h
    cases hl : lookupKey t k with
    | some w => rw [hl] at h; cases h
    | none =>
      rw [hl] at h
      rcases List.mem_cons.mp hp with heq | hm
      · cases heq
        exact hl
      · have := ih _ h p hm
        rw [lookupKey_append] at this
        cases hl2 : lookupKey t p.1 with
        | none => rfl
        | some w2 => rw [hl2] at this; cases this

theorem popKey_ok_lookup_ne (entries r : List (String × TomlVal))
    (key : String) (h : popKey entries key = .ok r) :
    ∀ k, k ≠ key → lookupKey r k = lookupKey entries k := by
  induction entries generalizing r with
  | nil => cases h
  | cons e rest ih =>
    obtain ⟨k0, v⟩ := e
    intro k hk
    unfold popKey at h
    by_cases h0 : k0 = key
    · rw [if_pos h0] at h
      injection h with h
      subst h
      subst h0
      simp only [lookupKey]
      rw [if_neg (fun hh => hk hh.symm)]
    · rw [if_neg h0] at h
      cases hp : popKey rest key with
      | ok r2 =>
        rw [hp] at h
        injection h with h
        subst h
        by_cases h1 : k0 = k
        · simp [lookupKey, h1]
        · simp [lookupKey, h1, ih r2 hp k hk]
      | error e2 => rw [hp] at h; cases h

theorem popKey_ok_lookup_self (entries r : List (String × TomlVal))
    (key : String) (h : popKey entries key = .ok r)
    (hnd : (entries.map Prod.fst).Nodup) : lookupKey r key = none := by
  induction entries generalizing r with
  | nil => cases h
  | cons e rest ih =>
    obtain ⟨k0, v⟩ := e
    simp only [List.map_cons, List.nodup_cons] at hnd
    unfold popKey at h
    by_cases h0 : k0 = key
    · rw [if_pos h0] at h
      injection h with h
      subst h
      subst h0
      exact lookupKey_eq_none_of_not_mem _ _ hnd.1
    · rw [if_neg h0] at h
      cases hp : popKey rest key with
      | ok r2 =>
        rw [hp] at h
        injection h with h
        subst h
        simp [lookupKey, h0, ih r2 hp hnd.2]
      | error e2 => rw [hp] at h; cases h

/-- Exhaustive description of the successful outcomes of one merge-loop
iteration. -/
theorem mergeStep_cases (vp : Bool) (tt res : List (String × TomlVal))
    (n : String) (v : TomlVal) (tt2 res2 : List (String × TomlVal))
    (h : mergeStep vp tt res n v = .ok (tt2, res2)) :
    (n = "project" ∧ tt2 = tt ∧ res2 = res)
    ∨ (n = "tool" ∧ ∃ te t2, v = .table te ∧ addAll tt te = .ok (tt ++ te)
        ∧ popKey (tt ++ te) "poetry" = .ok t2 ∧ tt2 = t2
        ∧ res2 = setKey res "tool" (.table t2))
    ∨ (n = "build-system" ∧ vp = true ∧ tt2 = tt ∧ res2 = res)
    ∨ (n = "build-system" ∧ vp = false ∧ tt2 = tt
        ∧ ∃ v', rewriteBuildSystem v = .ok v'
            ∧ res2 = setKey res "build-system" v')
    ∨ (n ≠ "project" ∧ n ≠ "tool" ∧ n ≠ "build-system" ∧ tt2 = tt
        ∧ res2 = setKey res n v) := by
  unfold mergeStep at h
  by_cases h1 : n = "project"
  · rw [if_pos h1] at h
    simp only [Except.ok.injEq, Prod.mk.injEq] at h
    exact Or.inl ⟨h1, h.1.symm, h.2.symm⟩
  · rw [if_neg h1] at h
    by_cases h2 : n = "tool"
    · rw [if_pos h2] at h
      cases v with
      | table te =>
        dsimp only at h
        cases haa : addAll tt te with
        | ok t1 =>
          rw [haa] at h
          dsimp only at h
          cases hpk : popKey t1 "poetry" with
          | ok t2 =>
            rw [hpk] at h
            simp only [Except.ok.injEq, Prod.mk.injEq] at h
            have he : t1 = tt ++ te := addAll_ok_eq _ _ _ haa
            subst he
            exact Or.inr (Or.inl ⟨h2, te, t2, rfl, haa, hpk, h.1.symm, h.2.symm⟩)
          | error e => rw [hpk] at h; cases h
        | error e => rw [haa] at h; cases h
      | str s => cases h
      | boolean b => cases h
      | strArr l => cases h
      | lineArr l => cases h
    · rw [if_neg h2] at h
      by_cases h3 : n = "build-system"
      · rw [if_pos h3] at h
        cases hvp : vp with
        | true =>
          rw [hvp, if_pos rfl] at h
          simp only [Except.ok.injEq, Prod.mk.injEq] at h
          exact Or.inr (Or.inr (Or.inl ⟨h3, rfl, h.1.symm, h.2.symm⟩))
        | false =>
          rw [hvp, if_neg Bool.false_ne_true] at h
          cases hrw : rewriteBuildSystem v with
          | ok v' =>
            rw [hrw] at h
            simp only [Except.ok.injEq, Prod.mk.injEq] at h
            exact Or.inr (Or.inr (Or.inr (Or.inl
              ⟨h3, rfl, h.1.symm, v', rfl, h.2.symm⟩)))
          | error e => rw [hrw] at h; cases h
      · rw [if_neg h3] at h
        simp only [Except.ok.injEq, Prod.mk.injEq] at h
        exact Or.inr (Or.inr (Or.inr (Or.inr ⟨h1, h2, h3, h.1.symm, h.2.symm⟩)))

/-- A successful step with a name other than `tool` leaves the tool table
unchanged. -/
theorem mergeStep_tt_eq (vp : Bool) (tt res : List (String × TomlVal))
    (n : String) (v : TomlVal) (tt2 res2 : List (String × TomlVal))
    (hn : n ≠ "tool") (h : mergeStep vp tt res n v = .ok (tt2, res2)) :
    tt2 = tt := by
  rcases mergeStep_cases vp tt res n v tt2 res2 h with
    ⟨_, htt, _⟩ | ⟨hn', _⟩ | ⟨_, _, htt, _⟩ | ⟨_, _, htt, _⟩ | ⟨_, _, _, htt, _⟩
  exacts [htt, absurd hn' hn, htt, htt, htt]

/-- A successful step writes at most the key `n` into the result. -/
theorem mergeStep_lookup_ne (vp : Bool) (tt res : List (String × TomlVal))
    (n : String) (v : TomlVal) (tt2 res2 : List (String × TomlVal)) (k : String)
    (hk : k ≠ n) (h : mergeStep vp tt res n v = .ok (tt2, res2)) :
    lookupKey res2 k = lookupKey res k := by
  rcases mergeStep_cases vp tt res n v tt2 res2 h with
    ⟨_, _, hres⟩ | ⟨hn, _, t2, _, _, _, _, hres⟩ | ⟨_, _, _, hres⟩
    | ⟨hn, _, _, v', _, hres⟩ | ⟨_, _, _, _, hres⟩
  · rw [hres]
  · subst hn
    rw [hres, lookupKey_setKey_ne _ _ _ _ hk]
  · rw [hres]
  · subst hn
    rw [hres, lookupKey_setKey_ne _ _ _ _ hk]
  · rw [hres, lookupKey_setKey_ne _ _ _ _ hk]

/-- No step ever writes the `project` key. -/
theorem mergeStep_lookup_project (vp : Bool) (tt res : List (String × TomlVal))
    (n : String) (v : TomlVal) (tt2 res2 : List (String × TomlVal))
    (h : mergeStep vp tt res n v = .ok (tt2, res2)) :
    lookupKey res2 "project" = lookupKey res "project" := by
  rcases mergeStep_cases vp tt res n v tt2 res2 h with
    ⟨_, _, hres⟩ | ⟨hn, _, t2, _, _, _, _, hres⟩ | ⟨_, _, _, hres⟩
    | ⟨hn, _, _, v', _, hres⟩ | ⟨hp, _, _, _, hres⟩
  · rw [hres]
  · subst hn
    rw [hres, lookupKey_setKey_ne _ _ _ _ (by decide)]
  · rw [hres]
  · subst hn
    rw [hres, lookupKey_setKey_ne _ _ _ _ (by decide)]
  · rw [hres, lookupKey_setKey_ne _ _ _ _ (fun hh => hp hh.symm)]

/-- Under `virtual_project = true` no step ever writes `build-system`. -/
theorem mergeStep_lookup_bs_virtual (tt res : List (String × TomlVal))
    (n : String) (v : TomlVal) (tt2 res2 : List (String × TomlVal))
    (h : mergeStep true tt res n v = .ok (tt2, res2)) :
    lookupKey res2 "build-system" = lookupKey res "build-system" := by
  rcases mergeStep_cases true tt res n v tt2 res2 h with
    ⟨_, _, hres⟩ | ⟨hn, _, t2, _, _, _, _, hres⟩ | ⟨_, _, _, hres⟩
    | ⟨_, hvp, _⟩ | ⟨_, _, hb, _, hres⟩
  · rw [hres]
  · subst hn
    rw [hres, lookupKey_setKey_ne _ _ _ _ (by decide)]
  · rw [hres]
  · cases hvp
  · rw [hres, lookupKey_setKey_ne _ _ _ _ (fun hh => hb hh.symm)]

theorem mergeLoop_cons_ok (vp : Bool) (n : String) (v : TomlVal)
    (rest : List (String × TomlVal)) (tt res tt' res' : List (String × TomlVal))
    (h : mergeLoop vp ((n, v) :: rest) tt res = .ok (tt', res')) :
    ∃ tt2 res2, mergeStep vp tt res n v = .ok (tt2, res2)
      ∧ mergeLoop vp rest tt2 res2 = .ok (tt', res') := by
  unfold mergeLoop at h
  cases hstep : mergeStep vp tt res n v with
  | ok p =>
    obtain ⟨a, b⟩ := p
    rw [hstep] at h
    exact ⟨a, b, rfl, h⟩
  | error e => rw [hstep] at h; cases h

theorem mergeLoop_nil_ok (vp : Bool) (tt res tt' res' : List (String × TomlVal))
    (h : mergeLoop vp [] tt res = .ok (tt', res')) : tt' = tt ∧ res' = res := by
  unfold mergeLoop at h
  simp only [Except.ok.injEq, Prod.mk.injEq] at h
  exact ⟨h.1.symm, h.2.symm⟩

/-- Keys that never occur in the remaining entries are untouched by the
loop. -/
theorem mergeLoop_preserves (vp : Bool) (entries : List (String × TomlVal)) :
    ∀ tt res tt' res' k, mergeLoop vp entries tt res = .ok (tt', res') →
      k ∉ entries.map Prod.fst → lookupKey res' k = lookupKey res k := by
  induction entries with
  | nil =>
    intro tt res tt' res' k h _
    rw [(mergeLoop_nil_ok vp tt res tt' res' h).2]
  | cons e rest ih =>
    intro tt res tt' res' k h hk
    obtain ⟨n, v⟩ := e
    simp only [List.map_cons, List.mem_cons, not_or] at hk
    obtain ⟨tt2, res2, hstep, hloop⟩ := mergeLoop_cons_ok vp n v rest tt res tt' res' h
    rw [ih tt2 res2 tt' res' k hloop hk.2]
    exact mergeStep_lookup_ne vp tt res n v tt2 res2 k hk.1 hstep

theorem mergeLoop_project (vp : Bool) (entries : List (String × TomlVal)) :
    ∀ tt res tt' res', mergeLoop vp entries tt res = .ok (tt', res') →
      lookupKey res' "project" = lookupKey res "project" := by
  induction entries with
  | nil =>
    intro tt res tt' res' h
    rw [(mergeLoop_nil_ok vp tt res tt' res' h).2]
  | cons e rest ih =>
    intro tt res tt' res' h
    obtain ⟨n, v⟩ := e
    obtain ⟨tt2, res2, hstep, hloop⟩ := mergeLoop_cons_ok vp n v rest tt res tt' res' h
    rw [ih tt2 res2 tt' res' hloop]
    exact mergeStep_lookup_project vp tt res n v tt2 res2 hstep

theorem mergeLoop_bs_virtual (entries : List (String × TomlVal)) :
    ∀ tt res tt' res', mergeLoop true entries tt res = .ok (tt', res') →
      lookupKey res' "build-system" = lookupKey res "build-system" := by
  induction entries with
  | nil =>
    intro tt res tt' res' h
    rw [(mergeLoop_nil_ok true tt res tt' res' h).2]
  | cons e rest ih =>
    intro tt res tt' res' h
    obtain ⟨n, v⟩ := e
    obtain ⟨tt2, res2, hstep, hloop⟩ := mergeLoop_cons_ok true n v rest tt res tt' res' h
    rw [ih tt2 res2 tt' res' hloop]
    exact mergeStep_lookup_bs_virtual tt res n v tt2 res2 hstep

/-- A non-special section present in the entries ends up in the result
verbatim. -/
theorem mergeLoop_copies (vp : Bool) (entries : List (String × TomlVal)) :
    ∀ tt res tt' res' n v, mergeLoop vp entries tt res = .ok (tt', res') →
      (n, v) ∈ entries → (entries.map Prod.fst).Nodup →
      n ≠ "project" → n ≠ "tool" → n ≠ "build-system" →
      lookupKey res' n = some v := by
  induction entries with
  | nil => intro tt res tt' res' n v _ hmem; cases hmem
  | cons e rest ih =>
    intro tt res tt' res' n v h hmem hnd hn1 hn2 hn3
    obtain ⟨m, w⟩ := e
    simp only [List.map_cons, List.nodup_cons] at hnd
    obtain ⟨tt2, res2, hstep, hloop⟩ := mergeLoop_cons_ok vp m w rest tt res tt' res' h
    rcases List.mem_cons.mp hmem with heq | hm
    · cases heq
      have hres2 : lookupKey res2 n = some v := by
        rcases mergeStep_cases vp tt res n v tt2 res2 hstep with
          ⟨hp, _⟩ | ⟨hp, _⟩ | ⟨hp, _⟩ | ⟨hp, _⟩ | ⟨_, _, _, _, hres⟩
        · exact absurd hp hn1
        · exact absurd hp hn2
        · exact absurd hp hn3
        · exact absurd hp hn3
        · rw [hres]
          exact lookupKey_setKey_self res n v
      rw [mergeLoop_preserves vp rest tt2 res2 tt' res' n hloop hnd.1, hres2]
    · exact ih tt2 res2 tt' res' n v hloop hm hnd.2 hn1 hn2 hn3

/-- The `tool` section handling: the rye-seeded tool table receives every
original tool entry, `poetry` is popped, and the result's `tool` key holds
the outcome. -/
theorem mergeLoop_tool (vp : Bool) (entries : List (String × TomlVal)) :
    ∀ tt res tt' res' te, mergeLoop vp entries tt res = .ok (tt', res') →
      ("tool", TomlVal.table te) ∈ entries → (entries.map Prod.fst).Nodup →
      ∃ t2, popKey (tt ++ te) "poetry" = .ok t2
        ∧ lookupKey res' "tool" = some (.table t2)
        ∧ (∀ p ∈ te, lookupKey tt p.1 = none) := by
  induction entries with
  | nil => intro tt res tt' res' te _ hmem; cases hmem
  | cons e rest ih =>
    intro tt res tt' res' te h hmem hnd
    obtain ⟨m, w⟩ := e
    simp only [List.map_cons, List.nodup_cons] at hnd
    obtain ⟨tt2, res2, hstep, hloop⟩ := mergeLoop_cons_ok vp m w rest tt res tt' res' h
    rcases List.mem_cons.mp hmem with heq | hm
    · cases heq
      rcases mergeStep_cases vp tt res "tool" (.table te) tt2 res2 hstep with
        ⟨hp, _⟩ | ⟨_, te', t2, hveq, haa, hpk, htt2, hres2⟩ | ⟨hp, _⟩ | ⟨hp, _⟩
        | ⟨_, hp, _⟩
      · exact absurd hp (by decide)
      · injection hveq with hte
        subst hte
        refine ⟨t2, hpk, ?_, addAll_ok_fresh tt _ _ haa⟩
        rw [mergeLoop_preserves vp rest tt2 res2 tt' res' "tool" hloop hnd.1,
          hres2]
        exact lookupKey_setKey_self res "tool" (.table t2)
      · exact absurd hp (by decide)
      · exact absurd hp (by decide)
      · exact absurd rfl hp
    · have hm' : m ≠ "tool" := by
        intro hmt
        subst hmt
        exact hnd.1 (List.mem_map_of_mem Prod.fst hm)
      have htt2 : tt2 = tt := mergeStep_tt_eq vp tt res m w tt2 res2 hm' hstep
      subst htt2
      exact ih tt2 res2 tt' res' te hloop hm hnd.2

/-- The `build-system` handling under `virtual_project = false`: the input
section is rewritten and stored. -/
theorem mergeLoop_bs (entries : List (String × TomlVal)) :
    ∀ tt res tt' res' bsv, mergeLoop false entries tt res = .ok (tt', res') →
      ("build-system", bsv) ∈ entries → (entries.map Prod.fst).Nodup →
      ∃ v', rewriteBuildSystem bsv = .ok v'
        ∧ lookupKey res' "build-system" = some v' := by
  induction entries with
  | nil => intro tt res tt' res' bsv _ hmem; cases hmem
  | cons e rest ih =>
    intro tt res tt' res' bsv h hmem hnd
    obtain ⟨m, w⟩ := e
    simp only [List.map_cons, List.nodup_cons] at hnd
    obtain ⟨tt2, res2, hstep, hloop⟩ := mergeLoop_cons_ok false m w rest tt res tt' res' h
    rcases List.mem_cons.mp hmem with heq | hm
    · cases heq
      rcases mergeStep_cases false tt res "build-system" bsv tt2 res2 hstep with
        ⟨hp, _⟩ | ⟨hp, _⟩ | ⟨_, hvp, _⟩ | ⟨_, _, _, v', hrw, hres2⟩ | ⟨_, _, hp, _⟩
      · exact absurd hp (by decide)
      · exact absurd hp (by decide)
      · cases hvp
      · refine ⟨v', hrw, ?_⟩
        rw [mergeLoop_preserves false rest tt2 res2 tt' res' "build-system"
          hloop hnd.1, hres2]
        exact lookupKey_setKey_self res "build-system" v'
      · exact absurd rfl hp
    · exact ih tt2 res2 tt' res' bsv hloop hm hnd.2

theorem hatchStep_lookup_ne (vp : Bool) (packages : List String)
    (res res' : List (String × TomlVal)) (k : String) (hk : k ≠ "tool")
    (h : hatchStep vp packages res = .ok res') :
    lookupKey res' k = lookupKey res k := by
  unfold hatchStep at h
  cases hvp : vp with
  | true =>
    rw [hvp, if_pos rfl] at h
    injection h with h
    rw [← h]
  | false =>
    rw [hvp, if_neg Bool.false_ne_true] at h
    cases hl : lookupKey res "tool" with
    | some tv =>
      rw [hl] at h
      cases tv with
      | table tt =>
        injection h with h
        rw [← h, lookupKey_setKey_ne _ _ _ _ hk]
      | str s => cases h
      | boolean b => cases h
      | strArr l => cases h
      | lineArr l => cases h
    | none => rw [hl] at h; cases h

theorem hatchStep_tool (packages : List String)
    (res res' tt : List (String × TomlVal))
    (h : hatchStep false packages res = .ok res')
    (hl : lookupKey res "tool" = some (.table tt)) :
    lookupKey res' "tool"
      = some (.table (setKey tt "hatch" (hatchTable packages))) := by
  unfold hatchStep at h
  rw [if_neg Bool.false_ne_true, hl] at h
  injection h with h
  rw [← h]
  exact lookupKey_setKey_self res "tool" _

theorem buildResult_ok (vp : Bool) (ryeDev : Option (List ArrLine))
    (projectSec : TomlVal) (urlsSec : Option TomlVal) (packages : List String)
    (pyproject : List (String × TomlVal)) (result : List (String × TomlVal))
    (h : buildResult vp ryeDev projectSec urlsSec packages pyproject = .ok result) :
    ∃ tt' res',
      mergeLoop vp pyproject [("rye", .table (ryeSection vp ryeDev))]
          (mergeInit projectSec urlsSec) = .ok (tt', res')
        ∧ hatchStep vp packages res' = .ok result := by
  unfold buildResult at h
  cases hml : mergeLoop vp pyproject [("rye", .table (ryeSection vp ryeDev))]
      (mergeInit projectSec urlsSec) with
  | ok p =>
    obtain ⟨a, b⟩ := p
    rw [hml] at h
    exact ⟨a, b, rfl, h⟩
  | error e => rw [hml] at h; cases h

theorem mergeInit_project (projectSec : TomlVal) (urlsSec : Option TomlVal) :
    lookupKey (mergeInit projectSec urlsSec) "project" = some projectSec := by
  cases urlsSec <;> rfl

theorem mergeInit_bs (projectSec : TomlVal) (urlsSec : Option TomlVal) :
    lookupKey (mergeInit projectSec urlsSec) "build-system" = none := by
  cases urlsSec <;> simp [mergeInit, lookupKey]

theorem ryeSection_managed (vp : Bool) (devDeps : Option (List ArrLine)) :
    lookupKey (ryeSection vp devDeps) "managed" = some (.boolean true) := by
  cases devDeps <;> rfl

theorem ryeSection_virtual (vp : Bool) (devDeps : Option (List ArrLine)) :
    lookupKey (ryeSection vp devDeps) "virtual" = some (.boolean vp) := by
  cases devDeps <;> simp [ryeSection, lookupKey]

/-- C2 (amended): on every successful run, `convert` copies each top-level
section other than `project`, `tool` and `build-system` verbatim, replaces
`project` with the newly built section, and rebuilds `tool`: `poetry` is
dropped, every sibling subsection is kept unchanged — except that when
`virtualProject` is false the `hatch` sibling is overwritten with generated
build configuration — and a `rye` subsection with `managed = true` and
`virtual = virtualProject` is inserted. -/
theorem convert_merges_sections (vp : Bool) (ryeDev : Option (List ArrLine))
    (projectSec : TomlVal) (urlsSec : Option TomlVal) (packages : List String)
    (pyproject te result : List (String × TomlVal))
    (hnd : (pyproject.map Prod.fst).Nodup)
    (htool : ("tool", TomlVal.table te) ∈ pyproject)
    (hte : (te.map Prod.fst).Nodup)
    (hok : buildResult vp ryeDev projectSec urlsSec packages pyproject
      = .ok result) :
    (∀ n v, (n, v) ∈ pyproject → n ≠ "project" → n ≠ "tool" →
        n ≠ "build-system" → lookupKey result n = some v)
      ∧ lookupKey result "project" = some projectSec
      ∧ ∃ tt, lookupKey result "tool" = some (.table tt)
          ∧ lookupKey tt "rye" = some (.table (ryeSection vp ryeDev))
          ∧ lookupKey (ryeSection vp ryeDev) "managed" = some (.boolean true)
          ∧ lookupKey (ryeSection vp ryeDev) "virtual" = some (.boolean vp)
          ∧ lookupKey tt "poetry" = none
          ∧ (∀ k v, (k, v) ∈ te → k ≠ "poetry" → (vp = true ∨ k ≠ "hatch") →
              lookupKey tt k = some v) := by
  obtain ⟨tt', res', hml, hhs⟩ :=
    buildResult_ok vp ryeDev projectSec urlsSec packages pyproject result hok
  obtain ⟨t2, hpk, htl, hfresh⟩ :=
    mergeLoop_tool vp pyproject _ _ tt' res' te hml htool hnd
  have hpk2 : ∃ r2, popKey te "poetry" = .ok r2
      ∧ t2 = ("rye", TomlVal.table (ryeSection vp ryeDev)) :: r2 := by
    rw [List.singleton_append] at hpk
    unfold popKey at hpk
    rw [if_neg (by decide : ¬ ("rye" = "poetry"))] at hpk
    cases hr2 : popKey te "poetry" with
    | ok r2 =>
      rw [hr2] at hpk
      refine ⟨r2, rfl, ?_⟩
      injection hpk with h
      exact h.symm
    | error e => rw [hr2] at hpk; cases hpk
  obtain ⟨r2, hr2, ht2⟩ := hpk2
  subst ht2
  have hrye : lookupKey (("rye", TomlVal.table (ryeSection vp ryeDev)) :: r2)
      "rye" = some (.table (ryeSection vp ryeDev)) := by
    simp [lookupKey]
  have hpoetry : lookupKey
      (("rye", TomlVal.table (ryeSection vp ryeDev)) :: r2) "poetry" = none := by
    simp only [lookupKey]
    rw [if_neg (by decide : ¬ ("rye" = "poetry"))]
    exact popKey_ok_lookup_self te r2 "poetry" hr2 hte
  have hsib : ∀ k v, (k, v) ∈ te → k ≠ "poetry" →
      lookupKey (("rye", TomlVal.table (ryeSection vp ryeDev)) :: r2) k
        = some v := by
    intro k v hm hk
    have hfr := hfresh (k, v) hm
    simp only [lookupKey] at hfr ⊢
    have hkrye : ¬ ("rye" = k) := by
      intro heq
      rw [if_pos heq] at hfr
      cases hfr
    rw [if_neg hkrye, popKey_ok_lookup_ne te r2 "poetry" hr2 k hk]
    exact lookupKey_of_mem_nodup te k v hm hte
  cases vp with
  | true =>
    have hres : result = res' := by
      unfold hatchStep at hhs
      rw [if_pos rfl] at hhs
      injection hhs with h
      exact h.symm
    subst hres
    refine ⟨?_, ?_, _, htl, hrye, ryeSection_managed _ _, ryeSection_virtual _ _,
      hpoetry, ?_⟩
    · intro n v hm hn1 hn2 hn3
      exact mergeLoop_copies true pyproject _ _ tt' result n v hml hm hnd hn1 hn2 hn3
    · rw [mergeLoop_project true pyproject _ _ tt' result hml]
      exact mergeInit_project projectSec urlsSec
    · intro k v hm hk _
      exact hsib k v hm hk
  | false =>
    have htool2 := hatchStep_tool packages res' result _ hhs htl
    refine ⟨?_, ?_, _, htool2, ?_, ryeSection_managed _ _, ryeSection_virtual _ _,
      ?_, ?_⟩
    · intro n v hm hn1 hn2 hn3
      rw [hatchStep_lookup_ne false packages res' result n hn2 hhs]
      exact mergeLoop_copies false pyproject _ _ tt' res' n v hml hm hnd hn1 hn2 hn3
    · rw [hatchStep_lookup_ne false packages res' result "project" (by decide) hhs,
        mergeLoop_project false pyproject _ _ tt' res' hml]
      exact mergeInit_project projectSec urlsSec
    · rw [lookupKey_setKey_ne _ _ _ _ (by decide : "rye" ≠ "hatch")]
      exact hrye
    · rw [lookupKey_setKey_ne _ _ _ _ (by decide : "poetry" ≠ "hatch")]
      exact hpoetry
    · intro k v hm hk hd
      rcases hd with hd | hd
      · cases hd
      · rw [lookupKey_setKey_ne _ _ _ _ hd]
        exact hsib k v hm hk

/-- C3: the output build-system section is a function of the
`virtualProject` flag — never emitted when it is true; when it is false and
the input has one, `requires` is the input list with every string containing
`poetry-core` removed and `hatchling` appended, and `build-backend` becomes
`hatchling.build`. -/
theorem convert_build_system_spec :
    (∀ (ryeDev : Option (List ArrLine)) (projectSec : TomlVal)
        (urlsSec : Option TomlVal) (packages : List String)
        (pyproject result : List (String × TomlVal)),
      buildResult true ryeDev projectSec urlsSec packages pyproject
          = .ok result →
      lookupKey result "build-system" = none)
    ∧ (∀ (ryeDev : Option (List ArrLine)) (projectSec : TomlVal)
        (urlsSec : Option TomlVal) (packages : List String)
        (pyproject bse : List (String × TomlVal)) (reqs : List String)
        (result : List (String × TomlVal)),
      (pyproject.map Prod.fst).Nodup →
      ("build-system", TomlVal.table bse) ∈ pyproject →
      lookupKey bse "requires" = some (.strArr reqs) →
      buildResult false ryeDev projectSec urlsSec packages pyproject
          = .ok result →
      ∃ bse', lookupKey result "build-system" = some (.table bse')
        ∧ lookupKey bse' "requires"
            = some (.strArr
                ((reqs.filter fun x => !(strContains x "poetry-core"))
                  ++ ["hatchling"]))
        ∧ lookupKey bse' "build-backend" = some (.str "hatchling.build")) := by
  constructor
  · intro ryeDev projectSec urlsSec packages pyproject result hok
    obtain ⟨tt', res', hml, hhs⟩ :=
      buildResult_ok true ryeDev projectSec urlsSec packages pyproject result hok
    have hres : result = res' := by
      unfold hatchStep at hhs
      rw [if_pos rfl] at hhs
      injection hhs with h
      exact h.symm
    subst hres
    rw [mergeLoop_bs_virtual pyproject _ _ tt' result hml]
    exact mergeInit_bs projectSec urlsSec
  · intro ryeDev projectSec urlsSec packages pyproject bse reqs result hnd hmem
      hreq hok
    obtain ⟨tt', res', hml, hhs⟩ :=
      buildResult_ok false ryeDev projectSec urlsSec packages pyproject result hok
    obtain ⟨v', hrw, hlk⟩ := mergeLoop_bs pyproject _ _ tt' res' _ hml hmem hnd
    unfold rewriteBuildSystem at hrw
    dsimp only at hrw
    rw [hreq] at hrw
    dsimp only at hrw
    injection hrw with hv
    refine ⟨setKey (setKey bse "requires"
        (TomlVal.strArr ((reqs.filter fun x => !(strContains x "poetry-core"))
          ++ ["hatchling"])))
      "build-backend" (TomlVal.str "hatchling.build"), ?_, ?_, ?_⟩
    · rw [hatchStep_lookup_ne false packages res' result "build-system"
        (by decide) hhs, hlk, ← hv]
    · rw [lookupKey_setKey_ne _ _ _ _ (by decide : "requires" ≠ "build-backend")]
      exact lookupKey_setKey_self bse "requires" _
    · exact lookupKey_setKey_self _ "build-backend" _

/-- Counterexample to C2 as stated: on the concrete input `cexPy` (a
document with a `tool.hatch` sibling and a `build-system` section), both
runs succeed, yet with `virtualProject = false` the output `tool.hatch` is
not the original value (the hatch config is regenerated), and with
`virtualProject = true` the `build-system` section — a top-level section
other than the old tool's — is not copied to the output at all. -/
theorem convert_merges_sections_counterexample :
    isOkResult (buildResult false none (TomlVal.table []) none ["src/m"] cexPy)
        = true
      ∧ lookupKey cexToolEntries "hatch" = some (TomlVal.str "original")
      ∧ toolHatchOf (buildResult false none (TomlVal.table []) none ["src/m"] cexPy)
          ≠ some (TomlVal.str "original")
      ∧ isOkResult (buildResult true none (TomlVal.table []) none [] cexPy) = true
      ∧ lookupKey cexPy "build-system" = some cexBs
      ∧ bsOf (buildResult true none (TomlVal.table []) none [] cexPy) = none := by
  refine ⟨rfl, rfl, ?_, rfl, rfl, rfl⟩
  intro h
  have h1 : toolHatchOf
      (buildResult false none (TomlVal.table []) none ["src/m"] cexPy)
      = some (hatchTable ["src/m"]) := rfl
  rw [h1] at h
  injection h with h2
  exact TomlVal.noConfusion h2

/-- Witness for the amended C2 at a concrete document. -/
theorem convert_merges_sections_witness :
    lookupKey (resultOf (buildResult true none (TomlVal.table []) none [] wPy2))
        "extra" = some (TomlVal.str "keep")
      ∧ lookupKey (resultOf (buildResult true none (TomlVal.table []) none [] wPy2))
          "project" = some (TomlVal.table []) := by
  have h := convert_merges_sections true none (TomlVal.table []) none [] wPy2
    [("poetry", TomlVal.table []), ("black", TomlVal.str "cfg")]
    (resultOf (buildResult true none (TomlVal.table []) none [] wPy2))
    (by decide) (List.Mem.head _) (by decide) rfl
  exact ⟨h.1 "extra" (TomlVal.str "keep") (List.Mem.tail _ (List.Mem.head _))
    (by decide) (by decide) (by decide), h.2.1⟩

/-- Witness for C3 at the spec's concrete example. -/
theorem convert_build_system_spec_witness :
    bsReqOf (buildResult false none (TomlVal.table []) none ["src/m"] wPy3)
        = some (TomlVal.strArr ["hatchling"])
      ∧ bsBackendOf (buildResult false none (TomlVal.table []) none ["src/m"] wPy3)
          = some (TomlVal.str "hatchling.build")
      ∧ bsOf (buildResult true none (TomlVal.table []) none [] wPy3) = none := by
  obtain ⟨bse', hl, hr, hb⟩ := convert_build_system_spec.2 none (TomlVal.table [])
    none ["src/m"] wPy3 [("requires", TomlVal.strArr ["poetry-core>=1.0"])]
    ["poetry-core>=1.0"]
    (resultOf (buildResult false none (TomlVal.table []) none ["src/m"] wPy3))
    (by decide) (List.Mem.tail _ (List.Mem.head _)) rfl rfl
  have hfil : (["poetry-core>=1.0"].filter
      fun x => !(strContains x "poetry-core")) = [] := rfl
  refine ⟨?_, ?_, ?_⟩
  · have e : bsOf (buildResult false none (TomlVal.table []) none ["src/m"] wPy3)
        = some (TomlVal.table bse') := hl
    unfold bsReqOf
    rw [e]
    exact hr.trans (by rw [hfil, List.nil_append])
  · have e : bsOf (buildResult false none (TomlVal.table []) none ["src/m"] wPy3)
        = some (TomlVal.table bse') := hl
    unfold bsBackendOf
    rw [e]
    exact hb
  · exact convert_build_system_spec.1 none (TomlVal.table []) none [] wPy3
      (resultOf (buildResult true none (TomlVal.table []) none [] wPy3)) rfl

/-- C6: with `ensureSrc` and no existing `src` directory, the move step
creates `src` and relocates the module to `src/<module_name>` — afterwards
the module exists there and no longer at its original location; with `src`
already present the step is skipped entirely, and the step is idempotent. -/
theorem convert_move_step (srcDir modulePath target : String)
    (fs : List String) (h1 : srcDir ∉ fs) (h2 : modulePath ∈ fs)
    (h3 : modulePath ≠ target) (h4 : modulePath ≠ srcDir) :
    target ∈ moveStep true srcDir modulePath target fs
      ∧ modulePath ∉ moveStep true srcDir modulePath target fs
      ∧ srcDir ∈ moveStep true srcDir modulePath target fs
      ∧ (∀ (e : Bool) (fs' : List String), srcDir ∈ fs' →
          moveStep e srcDir modulePath target fs' = fs')
      ∧ (∀ (e : Bool) (fs' : List String),
          moveStep e srcDir modulePath target
              (moveStep e srcDir modulePath target fs')
            = moveStep e srcDir modulePath target fs') := by
  have hskip : ∀ (e : Bool) (fs' : List String), srcDir ∈ fs' →
      moveStep e srcDir modulePath target fs' = fs' := by
    intro e fs' hmem
    cases e with
    | false => rfl
    | true =>
      unfold moveStep
      rw [if_pos rfl, if_pos hmem]
  have hb : (srcDir != modulePath) = true := by
    simp only [bne_iff_ne, ne_eq]
    exact fun hh => h4 hh.symm
  have hrunGen : ∀ fs0 : List String, srcDir ∉ fs0 →
      moveStep true srcDir modulePath target fs0
        = target :: srcDir :: fs0.filter (fun q => q != modulePath) := by
    intro fs0 hs0
    unfold moveStep
    rw [if_pos rfl, if_neg hs0]
    unfold fsMove fsMkdir
    rw [List.filter_cons, if_pos hb]
  have hrun := hrunGen fs h1
  refine ⟨?_, ?_, ?_, hskip, ?_⟩
  · rw [hrun]
    exact List.mem_cons_self _ _
  · rw [hrun]
    simp only [List.mem_cons, List.mem_filter, not_or]
    refine ⟨h3, h4, ?_⟩
    intro hm
    have := hm.2
    simp at this
  · rw [hrun]
    exact List.mem_cons_of_mem _ (List.mem_cons_self _ _)
  · intro e fs'
    cases e with
    | false => rfl
    | true =>
      by_cases hs : srcDir ∈ fs'
      · rw [hskip true fs' hs, hskip true fs' hs]
      · rw [hrunGen fs' hs]
        exact hskip true _ (List.mem_cons_of_mem _ (List.mem_cons_self _ _))

/-- Witness for C6 at a concrete project layout. -/
theorem convert_move_step_witness :
    "p/src/mymod" ∈ moveStep true "p/src" "p/mymod" "p/src/mymod"
        ["p/mymod", "p/pyproject.toml"]
      ∧ "p/mymod" ∉ moveStep true "p/src" "p/mymod" "p/src/mymod"
          ["p/mymod", "p/pyproject.toml"]
      ∧ moveStep true "p/src" "p/mymod" "p/src/mymod"
          (moveStep true "p/src" "p/mymod" "p/src/mymod"
            ["p/mymod", "p/pyproject.toml"])
        = moveStep true "p/src" "p/mymod" "p/src/mymod"
            ["p/mymod", "p/pyproject.toml"] := by
  have h := convert_move_step "p/src" "p/mymod" "p/src/mymod"
    ["p/mymod", "p/pyproject.toml"] (by decide) (by decide) (by decide) (by decide)
  exact ⟨h.1, h.2.1, h.2.2.2.2 true ["p/mymod", "p/pyproject.toml"]⟩

/-- C7: in every run the backup of the whole project tree (with symlinks,
merging into an existing destination) happens unconditionally, is reported,
and strictly precedes the metadata overwrite; no mutating effect precedes
it. -/
theorem convert_backup_before_mutation (projectPath backupPath modulePath
    moduleName : String) (ensureSrc lockExists srcExists : Bool)
    (outLines : List String) :
    ∃ pre post mid post2,
      convertTrace projectPath backupPath modulePath moduleName ensureSrc
          lockExists srcExists outLines
        = pre ++ Event.copyTree projectPath backupPath true true :: post
      ∧ pre.all (fun ev => !(isMutation ev)) = true
      ∧ post = mid ++ Event.writeFile (projectPath ++ "/pyproject.toml") :: post2
      ∧ Event.printMsg ("created backup: " ++ backupPath) ∈ mid := by
  refine ⟨[Event.readFile (projectPath ++ "/pyproject.toml")],
    Event.printMsg ("created backup: " ++ backupPath)
      :: Event.writeFile (projectPath ++ "/pyproject.toml")
      :: Event.readFile (projectPath ++ "/pyproject.toml")
      :: ((warnLoop 1 outLines).map Event.printMsg
          ++ ((if lockExists
                then [Event.removeFile (projectPath ++ "/poetry.lock")]
                else [])
            ++ (if ensureSrc && !srcExists then
                  [Event.mkdirEvt (projectPath ++ "/src"),
                   Event.moveEvt modulePath (projectPath ++ "/src/" ++ moduleName)]
                else []))),
    [Event.printMsg ("created backup: " ++ backupPath)],
    Event.readFile (projectPath ++ "/pyproject.toml")
      :: ((warnLoop 1 outLines).map Event.printMsg
          ++ ((if lockExists
                then [Event.removeFile (projectPath ++ "/poetry.lock")]
                else [])
            ++ (if ensureSrc && !srcExists then
                  [Event.mkdirEvt (projectPath ++ "/src"),
                   Event.moveEvt modulePath (projectPath ++ "/src/" ++ moduleName)]
                else []))), ?_, rfl, rfl,
    List.mem_cons_self _ _⟩
  simp [convertTrace]

theorem warnLoop_eq (n : Nat) (lines : List String) :
    warnLoop n lines
      = ((List.enumFrom n lines).filter fun p => strContains p.2 "poetry").map
          fun p => mkWarning p.1 p.2 := by
  induction lines generalizing n with
  | nil => rfl
  | cons x xs ih =>
    show (if strContains x "poetry" then [mkWarning n x] else [])
        ++ warnLoop (n + 1) xs = _
    rw [ih (n + 1)]
    by_cases hx : strContains x "poetry" = true
    · simp [List.enumFrom, List.filter_cons, hx]
    · simp only [Bool.not_eq_true] at hx
      simp [List.enumFrom, List.filter_cons, hx]

theorem warnLoop_length (n : Nat) (lines : List String) :
    (warnLoop n lines).length
      = (lines.filter fun s => strContains s "poetry").length := by
  induction lines generalizing n with
  | nil => rfl
  | cons x xs ih =>
    show ((if strContains x "poetry" then [mkWarning n x] else [])
        ++ warnLoop (n + 1) xs).length = _
    rw [List.filter_cons]
    by_cases hx : strContains x "poetry" = true
    · simp [hx, ih (n + 1)]
    · simp only [Bool.not_eq_true] at hx
      simp [hx, ih (n + 1)]

theorem convertTrace_drop (projectPath backupPath modulePath moduleName : String)
    (ensureSrc lockExists srcExists : Bool) (outLines : List String) :
    (convertTrace projectPath backupPath modulePath moduleName ensureSrc
        lockExists srcExists outLines).drop (5 + (warnLoop 1 outLines).length)
      = (if lockExists then [Event.removeFile (projectPath ++ "/poetry.lock")]
          else [])
        ++ (if ensureSrc && !srcExists then
              [Event.mkdirEvt (projectPath ++ "/src"),
               Event.moveEvt modulePath (projectPath ++ "/src/" ++ moduleName)]
            else []) := by
  unfold convertTrace
  rw [List.append_assoc, List.append_assoc]
  have hlen : 5 + (warnLoop 1 outLines).length
      = ([Event.readFile (projectPath ++ "/pyproject.toml"),
          Event.copyTree projectPath backupPath true true,
          Event.printMsg ("created backup: " ++ backupPath),
          Event.writeFile (projectPath ++ "/pyproject.toml"),
          Event.readFile (projectPath ++ "/pyproject.toml")]
        ++ (warnLoop 1 outLines).map Event.printMsg).length := by
    simp only [List.length_append, List.length_map, List.length_cons,
      List.length_nil]
  rw [hlen, ← List.append_assoc _ ((warnLoop 1 outLines).map Event.printMsg),
    List.drop_left]

/-- C8: after rewriting the file, the sweep produces exactly one warning per
line containing the substring `poetry`, carrying the 1-based line number and
the trimmed content; it is advisory only — the remainder of the run does not
depend on what the sweep found. -/
theorem convert_warning_sweep (lines : List String) :
    warnLoop 1 lines
        = ((List.enumFrom 1 lines).filter fun p => strContains p.2 "poetry").map
            (fun p => mkWarning p.1 p.2)
      ∧ (warnLoop 1 lines).length
          = (lines.filter fun s => strContains s "poetry").length
      ∧ ∀ (projectPath backupPath modulePath moduleName : String)
          (ensureSrc lockExists srcExists : Bool) (lines' : List String),
          (convertTrace projectPath backupPath modulePath moduleName ensureSrc
              lockExists srcExists lines).drop (5 + (warnLoop 1 lines).length)
            = (convertTrace projectPath backupPath modulePath moduleName
                ensureSrc lockExists srcExists lines').drop
                  (5 + (warnLoop 1 lines').length) := by
  refine ⟨warnLoop_eq 1 lines, warnLoop_length 1 lines, ?_⟩
  intro projectPath backupPath modulePath moduleName ensureSrc lockExists
    srcExists lines'
  rw [convertTrace_drop, convertTrace_drop]

end Poetry2Rye
